import Mathlib

/-!
Verification of the PGURE-SVT denoising library against its specification.

This file gives a shallow embedding of the library's scheduler
(`parallel.hpp`) and of the driver `PGURESVT` (`src/lib-PGURE-SVT.cpp`),
and proves or refutes the specification's claims about them.

Conventions: machine integers are modelled as `ℕ`/`ℤ` (all quantities are
in range in the claims considered); image intensities are modelled as `ℚ`
(exact arithmetic), except where a claim is specifically about IEEE
division by zero, for which a small explicit floating-point value model is
used.  Components whose sources are not in the repository snapshot
(`noise.hpp`, `pgure.hpp`, `hotpixel.hpp`, `medfilter.h`) are modelled
from the specification and marked as such in their doc comments.
-/

namespace PgureSvt

/-! ## Parallel scheduler (`parallel.hpp`)

`parallel(func, dim_first, dim_last, threshold)` dispatches into one of
three branches depending on `hardware_concurrency()` (written `P` here),
the range size and the threshold. -/

/-- `job_slice(a, b)`: the indices `[a, b)` handled by one thread; the
source returns immediately when `a ≥ b`. -/
def jobSlice (a b : ℕ) : List ℕ := List.range' a (b - a)

/-- `tasks_per_thread = (dim_last - dim_first + total_cores - 1) / total_cores`. -/
def tasksPerThread (first last P : ℕ) : ℕ := (last - first + P - 1) / P

/-- The three dispatch branches of `parallel`. -/
inductive Branch where
  | seqBranch : Branch
  | perIndex : Branch
  | blocks : Branch
deriving DecidableEq, Repr

/-- Which branch `parallel` takes: sequential when `total_cores ≤ 1` or
`dim_last - dim_first ≤ threshold`; one thread per index when
`dim_last - dim_first ≤ total_cores`; otherwise block partitioning. -/
def parallelBranch (first last threshold P : ℕ) : Branch :=
  if P ≤ 1 ∨ last - first ≤ threshold then .seqBranch
  else if last - first ≤ P then .perIndex
  else .blocks

/-- The `(first, last)` pair of the slice handed to worker `k` in the
block branch: `first = min(tasks_per_thread*k + dim_first, dim_last)`,
`last = min(first + tasks_per_thread, dim_last)`. -/
def workerSlice (first last P k : ℕ) : ℕ × ℕ :=
  let tpt := tasksPerThread first last P
  let f := min (tpt * k + first) last
  (f, min (f + tpt) last)

/-- The slice the calling thread runs itself in the block branch:
`job_slice(tasks_per_thread*(total_cores-1), dim_last)`.  Note that the
source does not add `dim_first` to the start of this slice. -/
def mainSlice (first last P : ℕ) : ℕ × ℕ :=
  (tasksPerThread first last P * (P - 1), last)

/-- Number of `std::thread` workers launched by `parallel`. -/
def threadsLaunched (first last threshold P : ℕ) : ℕ :=
  match parallelBranch first last threshold P with
  | .seqBranch => 0
  | .perIndex => last - first
  | .blocks => P - 1

/-- The multiset (as an ordered list) of indices on which
`parallel(func, dim_first, dim_last, threshold)` invokes `func`, under `P`
reported execution units: sequential loop, one thread per index, or the
`P - 1` worker slices followed by the calling thread's slice. -/
def parallelCalls (first last threshold P : ℕ) : List ℕ :=
  match parallelBranch first last threshold P with
  | .seqBranch => List.range' first (last - first)
  | .perIndex => List.range' first (last - first)
  | .blocks =>
      ((List.range (P - 1)).map
        (fun k => jobSlice (workerSlice first last P k).1 (workerSlice first last P k).2)).flatten
      ++ jobSlice (mainSlice first last P).1 (mainSlice first last P).2

/-- The concatenation of the first `m` worker slices, for `dim_first = 0`:
they cover `[0, min(tasks_per_thread · m, dim_last))` in order. -/
lemma workerSlices_join_eq (last P m : ℕ) :
    ((List.range m).map
      (fun k => jobSlice (workerSlice 0 last P k).1 (workerSlice 0 last P k).2)).flatten
    = List.range' 0 (min (tasksPerThread 0 last P * m) last) := by
  induction m with
  | zero => simp [jobSlice, workerSlice]
  | succ m ih =>
      rw [List.range_succ, List.map_append, List.flatten_append, ih]
      simp only [List.map_cons, List.map_nil, List.flatten_cons, List.flatten_nil, List.append_nil]
      set tpt := tasksPerThread 0 last P with htpt
      have hf : (workerSlice 0 last P m).1 = min (tpt * m) last := by
        simp [workerSlice, htpt]
      have hl : (workerSlice 0 last P m).2 = min (min (tpt * m) last + tpt) last := by
        simp [workerSlice, htpt]
      rw [hf, hl, jobSlice]
      have hstep := List.range'_append 0 (min (tpt * m) last)
        (min (min (tpt * m) last + tpt) last - min (tpt * m) last) 1
      simp only [Nat.zero_add, Nat.one_mul] at hstep
      rw [hstep]
      congr 1
      rw [Nat.mul_succ]
      omega

/-- C5 (amended): when `n = last - first` is above the threshold and
strictly greater than `P` (with `P > 1`), `parallel` takes the block
branch, launches `P - 1` workers on the clamped blocks of size
`ceil(n/P)`, and the calling thread runs `[ceil(n/P)·(P-1), last)`; when
`dim_first = 0` the slices together enumerate `{0, …, last-1}` exactly
once, in order. -/
theorem C5_amended (first last threshold P : ℕ)
    (hP : 1 < P) (hth : threshold < last - first) (hn : P < last - first) :
    parallelBranch first last threshold P = Branch.blocks ∧
    threadsLaunched first last threshold P = P - 1 ∧
    (∀ k, workerSlice first last P k =
      (min (tasksPerThread first last P * k + first) last,
       min (min (tasksPerThread first last P * k + first) last + tasksPerThread first last P)
         last)) ∧
    mainSlice first last P = (tasksPerThread first last P * (P - 1), last) ∧
    (first = 0 → parallelCalls first last threshold P = List.range' 0 last) := by
  have hbranch : parallelBranch first last threshold P = Branch.blocks := by
    unfold parallelBranch
    rw [if_neg (by omega), if_neg (by omega)]
  refine ⟨hbranch, ?_, ?_, rfl, ?_⟩
  · unfold threadsLaunched
    rw [hbranch]
  · intro k
    simp [workerSlice]
  · rintro rfl
    unfold parallelCalls
    rw [hbranch]
    rw [workerSlices_join_eq last P (P - 1)]
    simp only [mainSlice, jobSlice]
    rcases Nat.le_total (tasksPerThread 0 last P * (P - 1)) last with hle | hge
    · rw [min_eq_left hle]
      have hstep := List.range'_append 0 (tasksPerThread 0 last P * (P - 1))
        (last - tasksPerThread 0 last P * (P - 1)) 1
      simp only [Nat.zero_add, Nat.one_mul] at hstep
      rw [hstep]
      congr 1
      omega
    · rw [min_eq_right hge]
      have hempty : last - tasksPerThread 0 last P * (P - 1) = 0 := by omega
      rw [hempty]
      simp [List.range']

/-- Witness for `C5_amended` at `first = 0`, `last = 10`, `threshold = 1`,
`P = 3`. -/
theorem C5_amended_witness :
    parallelCalls 0 10 1 3 = List.range' 0 10 :=
  (C5_amended 0 10 1 3 (by decide) (by decide) (by decide)).2.2.2.2 rfl

/-- C5 (counterexample to the claim as stated): at `first = 0`,
`last = 4`, `threshold = 1`, `P = 4` the range size `n = 4` is above the
threshold and not smaller than `P`, yet `parallel` takes the
one-thread-per-index branch and launches `4` threads, not `P - 1 = 3`
workers on blocks. -/
theorem C5_boundary_counterexample :
    1 < 4 - 0 ∧ ¬ (4 - 0 < 4) ∧ 1 < 4 ∧
    parallelBranch 0 4 1 4 = Branch.perIndex ∧
    parallelBranch 0 4 1 4 ≠ Branch.blocks ∧
    threadsLaunched 0 4 1 4 = 4 ∧ threadsLaunched 0 4 1 4 ≠ 4 - 1 := by
  decide

/-- C1 (code bug): for `dim_first = 2`, `dim_last = 12`, `threshold = 1`
and `P = 2` execution units, the block branch is taken and `parallel`
invokes the indices `5` and `6` twice — the calling thread's slice starts
at `tasks_per_thread·(P-1) = 5` instead of `dim_first +
tasks_per_thread·(P-1) = 7` — contradicting the claim that every index of
`{2, …, 11}` is invoked exactly once. -/
theorem C1_parallel_duplicate_eval :
    parallelBranch 2 12 1 2 = Branch.blocks ∧
    parallelCalls 2 12 1 2 = [2, 3, 4, 5, 6] ++ [5, 6, 7, 8, 9, 10, 11] ∧
    List.count 5 (parallelCalls 2 12 1 2) = 2 ∧
    List.count 5 (List.range' 2 10) = 1 := by
  decide

/-! ## Frame-window extraction (`lib-PGURE-SVT.cpp`, lines 181-198, 252-262) -/

/-- `int framewindow = std::floor(T/2);` (line 181). -/
def framewindow (T : ℕ) : ℕ := T / 2

/-- Armadillo `slices(a, b)`: the contiguous sub-list of frames `a … b`,
inclusive at both ends. -/
def armaSlices {α : Type} (s : List α) (a b : ℕ) : List α := (s.drop a).take (b + 1 - a)

/-- The inclusive frame-index range of the window extracted for target
frame `timeiter` (lines 187-198): the first `2·framewindow+1` frames when
`timeiter < framewindow`, the last ones when
`timeiter ≥ num_images - framewindow`, otherwise centered on the target. -/
def windowRange (timeiter fw n : ℕ) : ℕ × ℕ :=
  if timeiter < fw then (0, 2 * fw)
  else if n - fw ≤ timeiter then (n - 2 * fw - 1, n - 1)
  else (timeiter - fw, timeiter + fw)

/-- The window of frames extracted for target `timeiter` (`u` and
`ufilter` are both built this way in the source). -/
def extractWindow {α : Type} (s : List α) (timeiter fw n : ℕ) : List α :=
  armaSlices s (windowRange timeiter fw n).1 (windowRange timeiter fw n).2

/-- Which slice of the reconstructed window `v` is written back to
`cleansequence.slice(timeiter)` (lines 253-262): the target's offset in
the clamped block at either boundary (`timeiter`, resp.
`timeiter - (num_images - T)`), the window center `framewindow`
otherwise. -/
def writebackSlice (timeiter fw T n : ℕ) : ℕ :=
  if timeiter < fw then timeiter
  else if n - fw ≤ timeiter then timeiter - (n - T)
  else fw

/-- C2: for `framewindow = 2`, `T = 5`, `num_images = 10`, target 0 gets
frames `[0..4]`, target 9 gets frames `[5..9]`, target 5 gets frames
`[3..7]`; at the clamped boundaries the written-back slice is the
target's offset within the fixed block (0 for target 0, 4 for target 9,
1 for target 1, 3 for target 8), not the window center `framewindow = 2`,
while an interior target uses the center. -/
theorem C2_window_extraction {α : Type} (s : List α) (h : s.length = 10) :
    extractWindow s 0 2 10 = s.take 5 ∧
    extractWindow s 9 2 10 = s.drop 5 ∧
    extractWindow s 5 2 10 = (s.drop 3).take 5 ∧
    writebackSlice 0 2 5 10 = 0 ∧
    writebackSlice 9 2 5 10 = 4 ∧
    writebackSlice 1 2 5 10 = 1 ∧
    writebackSlice 8 2 5 10 = 3 ∧
    writebackSlice 1 2 5 10 ≠ framewindow 5 ∧
    writebackSlice 5 2 5 10 = framewindow 5 := by
  refine ⟨?_, ?_, ?_, rfl, rfl, rfl, rfl, by decide, rfl⟩
  · simp [extractWindow, windowRange, armaSlices]
  · show (s.drop 5).take 5 = s.drop 5
    apply List.take_of_length_le
    simp [h]
  · rfl

/-- Witness for `C2_window_extraction` on the concrete sequence
`[0, 1, …, 9]`. -/
theorem C2_window_extraction_witness :
    extractWindow ([0, 1, 2, 3, 4, 5, 6, 7, 8, 9] : List ℕ) 0 2 10
        = ([0, 1, 2, 3, 4, 5, 6, 7, 8, 9] : List ℕ).take 5 ∧
    extractWindow ([0, 1, 2, 3, 4, 5, 6, 7, 8, 9] : List ℕ) 9 2 10
        = ([0, 1, 2, 3, 4, 5, 6, 7, 8, 9] : List ℕ).drop 5 ∧
    extractWindow ([0, 1, 2, 3, 4, 5, 6, 7, 8, 9] : List ℕ) 5 2 10
        = (([0, 1, 2, 3, 4, 5, 6, 7, 8, 9] : List ℕ).drop 3).take 5 ∧
    writebackSlice 0 2 5 10 = 0 ∧
    writebackSlice 9 2 5 10 = 4 ∧
    writebackSlice 1 2 5 10 = 1 ∧
    writebackSlice 8 2 5 10 = 3 ∧
    writebackSlice 1 2 5 10 ≠ framewindow 5 ∧
    writebackSlice 5 2 5 10 = framewindow 5 :=
  C2_window_extraction [0, 1, 2, 3, 4, 5, 6, 7, 8, 9] rfl

/-! ## Threshold seeding (lines 113, 183, 238-243) -/

/-- `double lambda = (userLambda >= 0.) ? userLambda : 0.;` (line 113).
This is the value captured once, by value, as `lambda_` when the
per-frame closure `func` is created (`[&, lambda_=lambda]`, line 183). -/
def initialLambda (userLambda : ℚ) : ℚ := if 0 ≤ userLambda then userLambda else 0

/-- The mean intensity `arma::accu(u)/(Nx*Ny*T)` of the normalized window
(line 240). -/
def windowMeanIntensity (u : List ℚ) (NxNyT : ℕ) : ℚ := u.sum / NxNyT

/-- The seed handed to `PGURE::Optimize` for frame `timeiter`
(lines 239-240): `auto lambda = lambda_;` followed by
`lambda = (timeiter == 0) ? arma::accu(u)/(Nx*Ny*T) : lambda;`.
`lambdaCaptured` is the by-value captured `lambda_`, re-copied into a
fresh invocation-local at every call; `meanU` is the normalized window
mean of the frame itself. -/
def lambdaSeed (lambdaCaptured meanU : ℚ) (timeiter : ℕ) : ℚ :=
  if timeiter = 0 then meanU else lambdaCaptured

/-- The λ value `Optimize` returns for frame `t` (line 241), for an
abstract optimizer `Opt` mapping a frame index and a seed to a converged
value; the result is stored only in the invocation-local `lambda` and in
the frame's own reconstruction. -/
def convergedLambda (Opt : ℕ → ℚ → ℚ) (lambdaCaptured : ℚ) (meanU : ℕ → ℚ) (t : ℕ) : ℚ :=
  Opt t (lambdaSeed lambdaCaptured (meanU t) t)

/-- C4 (counterexample to the claim as stated): with captured initial
λ `0`, frame-0 normalized mean `4` and an optimizer returning
`seed + 1`, frame 0 converges to `5`, yet frame 1's search starts from
the captured initial value `0`, not from `5`. -/
theorem C4_seed_counterexample :
    convergedLambda (fun _ h => h + 1) 0 (fun _ => 4) 0 = 5 ∧
    lambdaSeed 0 4 1 = 0 ∧
    lambdaSeed 0 4 1 ≠ convergedLambda (fun _ h => h + 1) 0 (fun _ => 4) 0 := by
  refine ⟨?_, rfl, ?_⟩ <;> norm_num [convergedLambda, lambdaSeed]

/-- C4 (amended): frame 0's λ search is seeded with the normalized
window's mean intensity; every other frame's search is seeded with the
function-initial λ (`(userLambda ≥ 0) ? userLambda : 0`, captured by
value when the closure is created), not with any other frame's converged
value. -/
theorem C4_amended (userLambda : ℚ) (meanU : ℕ → ℚ) (t : ℕ) (ht : t ≠ 0) :
    lambdaSeed (initialLambda userLambda) (meanU 0) 0 = meanU 0 ∧
    lambdaSeed (initialLambda userLambda) (meanU t) t = initialLambda userLambda := by
  simp [lambdaSeed, ht]

/-- Witness for `C4_amended` at `userLambda = 2`, constant normalized
mean `3`, frame `t = 1`. -/
theorem C4_amended_witness :
    lambdaSeed (initialLambda 2) ((fun _ : ℕ => (3 : ℚ)) 0) 0 = (fun _ : ℕ => (3 : ℚ)) 0 ∧
    lambdaSeed (initialLambda 2) ((fun _ : ℕ => (3 : ℚ)) 1) 1 = initialLambda 2 :=
  C4_amended 2 (fun _ => 3) 1 (by decide)

/-! ## IEEE-754 value model for window normalization (lines 200-203)

The normalization `u /= u.max()` is element-wise `double` division.  To
settle the all-zero-window claim faithfully, `double` values are modelled
with their special values and the IEEE zero-divisor rules. -/

/-- A C++ `double` value, restricted to the operations the normalization
step uses: exact finite values, the two infinities and NaN (signed zero
is not distinguished). -/
inductive FP where
  | nan : FP
  | posInf : FP
  | negInf : FP
  | val : ℚ → FP
deriving DecidableEq, Repr

/-- IEEE-754 `<`: every comparison involving NaN is false. -/
def FP.lt : FP → FP → Bool
  | .nan, _ => false
  | _, .nan => false
  | .negInf, .negInf => false
  | .negInf, _ => true
  | _, .negInf => false
  | .posInf, _ => false
  | .val _, .posInf => true
  | .val a, .val b => decide (a < b)

/-- IEEE-754 division: NaN is absorbing, `∞/∞ = NaN`, `0/0 = NaN`,
`c/0 = ±∞` for finite `c ≠ 0`, finite/`∞` `= 0`. -/
def FP.div : FP → FP → FP
  | .nan, _ => .nan
  | _, .nan => .nan
  | .posInf, .posInf => .nan
  | .posInf, .negInf => .nan
  | .negInf, .posInf => .nan
  | .negInf, .negInf => .nan
  | .posInf, .val b => if b < 0 then .negInf else .posInf
  | .negInf, .val b => if b < 0 then .posInf else .negInf
  | .val _, .posInf => .val 0
  | .val _, .negInf => .val 0
  | .val a, .val b =>
      if b = 0 then (if a = 0 then .nan else (if a < 0 then .negInf else .posInf))
      else .val (a / b)

/-- `arma::cube::max()` over the elements of a non-empty window, folding
the IEEE comparison (`[]` is given the junk value `0`). -/
def windowMaxFP (w : List FP) : FP :=
  match w with
  | [] => .val 0
  | h :: t => t.foldl (fun a b => if FP.lt a b then b else a) h

/-- `double inputmax = u.max(); u /= inputmax;` (lines 201-202): every
element of the window divided by the window's own maximum. -/
def normalizeFP (w : List FP) : List FP := w.map (fun x => FP.div x (windowMaxFP w))

/-- C6 (counterexample to the claim as stated): normalizing the all-zero
four-pixel window does not yield an all-zero window — every entry becomes
`0/0 = NaN`. -/
theorem C6_zero_window_counterexample :
    normalizeFP (List.replicate 4 (FP.val 0)) ≠ List.replicate 4 (FP.val 0) ∧
    normalizeFP (List.replicate 4 (FP.val 0)) = List.replicate 4 FP.nan := by
  decide

/-- Folding the IEEE maximum over zeros from a zero accumulator stays
zero. -/
lemma foldl_fpmax_replicate_zero (m : ℕ) :
    (List.replicate m (FP.val 0)).foldl (fun a b => if FP.lt a b then b else a) (FP.val 0)
      = FP.val 0 := by
  induction m with
  | zero => rfl
  | succ k ih =>
      rw [List.replicate_succ, List.foldl_cons]
      simpa [FP.lt] using ih

/-- The maximum of an all-zero window is zero. -/
lemma windowMaxFP_replicate_zero (n : ℕ) (hn : 0 < n) :
    windowMaxFP (List.replicate n (FP.val 0)) = FP.val 0 := by
  obtain ⟨m, rfl⟩ : ∃ m, n = m + 1 := ⟨n - 1, by omega⟩
  rw [List.replicate_succ]
  exact foldl_fpmax_replicate_zero m

/-- C6 (amended): normalizing an all-zero window divides each zero entry
by the zero maximum; under IEEE-754 semantics `0/0 = NaN`, so the
normalized window is all-NaN (not all-zero), and no trap or fault occurs
(the operation is total). -/
theorem C6_amended (n : ℕ) (hn : 0 < n) :
    normalizeFP (List.replicate n (FP.val 0)) = List.replicate n FP.nan := by
  unfold normalizeFP
  rw [windowMaxFP_replicate_zero n hn, List.map_replicate]
  rfl

/-- Witness for `C6_amended` on a three-pixel window. -/
theorem C6_amended_witness :
    normalizeFP (List.replicate 3 (FP.val 0)) = List.replicate 3 FP.nan :=
  C6_amended 3 (by decide)

/-! ## Normalization round-trip (lines 200-202, 242, 249-250) -/

/-- `arma::cube::max()` on exact values (the driver's windows are
non-empty; `[]` is given the junk value `0`). -/
def windowMax (w : List ℚ) : ℚ :=
  match w with
  | [] => 0
  | h :: t => t.foldl max h

/-- Modelled from the spec (§4.5; `pgure.hpp` is not in the snapshot):
soft thresholding of one singular value — values below `λ` are zeroed,
values above are shrunk by `λ`. -/
def svShrink (lam s : ℚ) : ℚ := max (s - lam) 0

/-- Modelled from the spec (§4.5; `pgure.hpp` is not in the snapshot):
`PGURE::Reconstruct(λ)` decomposes the patch stacks, soft-thresholds the
singular values and recomposes.  `dec`/`recomp` abstract the SVD of the
stacks; the theorems assume exact recomposition `recomp ∘ dec = id`
("no thresholding error") and non-negative singular values. -/
def svtReconstruct (dec recomp : List ℚ → List ℚ) (lam : ℚ) (w : List ℚ) : List ℚ :=
  recomp ((dec w).map (svShrink lam))

/-- The per-frame value flow of lines 201-202, 242 and 250:
`inputmax = u.max(); u /= inputmax; v = Reconstruct(λ); v *= inputmax` —
the reconstruction is rescaled by exactly the scalar that normalized the
window. -/
def frameProcess (reconstruct : ℚ → List ℚ → List ℚ) (lam : ℚ) (w : List ℚ) : List ℚ :=
  let inputmax := windowMax w
  let u := w.map (· / inputmax)
  let v := reconstruct lam u
  v.map (· * inputmax)

/-- C7: reconstructing a window at `λ = 0` with an exact decomposition/
recomposition pair (no thresholding error, non-negative singular values)
and rescaling by the stored normalization factor reproduces the original
window exactly — rescaling inverts normalization. -/
theorem C7_normalization_roundtrip (w : List ℚ) (dec recomp : List ℚ → List ℚ)
    (hexact : ∀ x, recomp (dec x) = x)
    (hnonneg : ∀ s ∈ dec (w.map (· / windowMax w)), 0 ≤ s)
    (hmax : windowMax w ≠ 0) :
    frameProcess (svtReconstruct dec recomp) 0 w = w := by
  show (recomp ((dec (w.map (· / windowMax w))).map (svShrink 0))).map (· * windowMax w) = w
  have hshrink : (dec (w.map (· / windowMax w))).map (svShrink 0)
      = dec (w.map (· / windowMax w)) := by
    conv_rhs => rw [← List.map_id (dec (w.map (· / windowMax w)))]
    apply List.map_congr_left
    intro s hs
    have := hnonneg s hs
    simp [svShrink, max_eq_left, this]
  rw [hshrink, hexact, List.map_map]
  conv_rhs => rw [← List.map_id w]
  apply List.map_congr_left
  intro a _
  simp [div_mul_cancel₀ a hmax]

/-- Witness for `C7_normalization_roundtrip` on the window `[1, 2]` with
the identity decomposition pair. -/
theorem C7_normalization_roundtrip_witness :
    frameProcess (svtReconstruct id id) 0 [1, 2] = [1, 2] :=
  C7_normalization_roundtrip [1, 2] id id (fun _ => rfl)
    (by intro s hs; simp [windowMax] at hs; rcases hs with h | h <;> rw [h] <;> norm_num)
    (by norm_num [windowMax])

/-! ## Driver `PGURESVT` (lines 79-279) -/

/-- A frame: flattened pixel intensities. -/
abbrev Frame := List ℚ

/-- A sequence of frames. -/
abbrev Seqn := List Frame

/-- The scalar arguments of the C entry point `PGURESVT` (the buffers
`X` / `Y` and `dims` are passed separately: the input sequence, and its
shape). -/
structure Args where
  Nx : ℤ
  Ny : ℤ
  numImages : ℤ
  Bs : ℤ
  Bo : ℤ
  T : ℤ
  pgureOpt : Bool
  userLambda : ℚ
  alpha : ℚ
  mu : ℚ
  sigma : ℚ
  motionP : ℤ
  tol : ℚ
  medianSize : ℤ
  hotpixelthreshold : ℚ
  numthreads : ℤ
deriving Repr

/-- Invalid geometry in the sense of the claim: patch size `Bs`
exceeding the frame width or height, or non-positive window length `T`. -/
def invalidGeometry (a : Args) : Prop := a.Nx < a.Bs ∨ a.Ny < a.Bs ∨ a.T ≤ 0

instance (a : Args) : Decidable (invalidGeometry a) := by
  unfold invalidGeometry
  infer_instance

/-- `filteredsequence` (lines 134-151): the constant-time median filter
(whose source `medfilter.h` is not in the snapshot, abstracted as the
per-frame function `median`) applied to every slice of the raw input,
before any other processing of the sequence. -/
def filteredSequence (median : Frame → Frame) (raw : Seqn) : Seqn :=
  raw.map median

/-- Modelled from the spec (§6; `hotpixel.hpp` is not in the snapshot):
`HotPixelFilter(noisysequence, threshold)` (line 171) replaces outlier
pixels of the whole input sequence in place, abstracted as the
whole-sequence function `hot`; it runs after the median filtering. -/
def correctedSequence (hot : Seqn → Seqn) (raw : Seqn) : Seqn :=
  hot raw

/-- The two window inputs of one per-frame pipeline invocation
(lines 186-198): `u` from the hot-pixel-corrected `noisysequence` and
`ufilter` from `filteredsequence`. -/
structure FrameInputs where
  u : Seqn
  ufilter : Seqn
deriving Repr

/-- Builds the per-frame windows the way the driver does: `ufilter` (the
motion-search input) is a window of the median-filtered raw sequence,
and `u` (the noise-estimation and SVT input) is a window of the
hot-pixel-corrected sequence. -/
def frameInputs (median : Frame → Frame) (hot : Seqn → Seqn) (raw : Seqn)
    (timeiter fw : ℕ) : FrameInputs :=
  { u := extractWindow (correctedSequence hot raw) timeiter fw raw.length
    ufilter := extractWindow (filteredSequence median raw) timeiter fw raw.length }

/-- The driver `PGURESVT`: median filtering of every slice (scheduled by
`parallel`), hot-pixel correction, the per-frame pipeline over every
frame index (lines 183-265, abstracted as `frameOutput` of the two
sequences and the index), and the single `return 0` of line 278.  The
model returns the output sequence paired with the returned status code;
no argument is validated on any path. -/
def PGURESVT_model (median : Frame → Frame) (hot : Seqn → Seqn)
    (frameOutput : Seqn → Seqn → ℕ → Frame) (a : Args) (raw : Seqn) :
    Seqn × ℤ :=
  let filtered := filteredSequence median raw
  let noisy := correctedSequence hot raw
  let clean := (List.range raw.length).map (frameOutput noisy filtered)
  (clean, 0)

/-- C9: `PGURESVT` returns the status code 0 for every combination of
arguments, input sequence and collaborator behavior — line 278 is its
only return statement and no path rejects. -/
theorem C9_status_always_zero (median : Frame → Frame) (hot : Seqn → Seqn)
    (frameOutput : Seqn → Seqn → ℕ → Frame) (a : Args) (raw : Seqn) :
    (PGURESVT_model median hot frameOutput a raw).2 = 0 :=
  rfl

/-- A concrete invalid-geometry argument vector: `Bs = 8` patches on
`4 × 4` frames. -/
def argsBad : Args :=
  { Nx := 4, Ny := 4, numImages := 10, Bs := 8, Bo := 1, T := 5,
    pgureOpt := true, userLambda := -1, alpha := -1, mu := -1, sigma := -1,
    motionP := 7, tol := 1 / 10000000, medianSize := 5,
    hotpixelthreshold := 10, numthreads := 1 }

/-- C3 (counterexample to the claim as stated): `argsBad` has invalid
geometry (`Bs = 8 > Nx = Ny = 4`), yet `PGURESVT` returns 0 rather than
a non-zero status — so 0 is not returned only on success and the
validation error is not surfaced. -/
theorem C3_no_rejection_counterexample :
    invalidGeometry argsBad ∧
    (PGURESVT_model id id (fun _ _ _ => []) argsBad
        (List.replicate 10 (List.replicate 16 0))).2 = 0 := by
  exact ⟨by decide, rfl⟩

/-- C3 (amended): `PGURESVT` performs no geometry validation at all —
calls whose patch size exceeds the frame dimensions or whose window
length is non-positive are not rejected; the pipeline proceeds and the
status code 0 is returned on every path, so a 0 return does not indicate
a valid call. -/
theorem C3_amended (median : Frame → Frame) (hot : Seqn → Seqn)
    (frameOutput : Seqn → Seqn → ℕ → Frame) (a : Args) (raw : Seqn)
    (h : invalidGeometry a) :
    (PGURESVT_model median hot frameOutput a raw).2 = 0 :=
  rfl

/-- Witness for `C3_amended` at `argsBad` on a one-frame sequence. -/
theorem C3_amended_witness :
    (PGURESVT_model id id (fun _ _ _ => []) argsBad [[1]]).2 = 0 :=
  C3_amended id id (fun _ _ _ => []) argsBad [[1]] (by decide)

/-- C10: the motion-search input window is taken from the median-filtered
raw sequence — it is unaffected by the hot-pixel filter (the same for any
two hot-pixel behaviors `hot`, `hot'`) — while the noise-estimation/SVT
window `u` is taken from the hot-pixel-corrected sequence. -/
theorem C10_motion_input_prefilter (median : Frame → Frame)
    (hot hot' : Seqn → Seqn) (raw : Seqn) (t fw : ℕ) :
    (frameInputs median hot raw t fw).ufilter
      = extractWindow (raw.map median) t fw raw.length ∧
    (frameInputs median hot raw t fw).ufilter = (frameInputs median hot' raw t fw).ufilter ∧
    (frameInputs median hot raw t fw).u = extractWindow (hot raw) t fw raw.length :=
  ⟨rfl, rfl, rfl⟩

/-! ## Cross-frame interference through the shared noise-parameter slots

The per-frame closure `func` (line 183) captures the driver parameters
`alpha`, `mu`, `sigma` by reference, so all workers share these three
slots: each frame's `NoiseEstimator::Estimate` call (lines 207-214)
writes its estimates into them, and the frame's `PGURE::Initialize`
(lines 230-236) later reads them. -/

/-- One atomic step of a worker processing frame `i`: `estimate i` is the
`Estimate` call writing the shared parameter slots, `reconstruct i` is
the `Initialize`/`Optimize`/`Reconstruct`/write-back part reading the
slots and writing only the frame's own output slice. -/
inductive Ev where
  | estimate : ℕ → Ev
  | reconstruct : ℕ → Ev
deriving DecidableEq, Repr

/-- The frame index of a step. -/
def Ev.frame : Ev → ℕ
  | .estimate i => i
  | .reconstruct i => i

/-- Shared state of the batch: the noise-parameter slot (one rational
standing for the `(alpha, mu, sigma)` triple) and the per-frame output
slices. -/
structure SharedState where
  params : ℚ
  out : List (Option ℚ)
deriving DecidableEq, Repr

/-- Runs a schedule of worker steps; `win i` is frame `i`'s window.
Modelled from the spec (§4.3; `noise.hpp` is not in the snapshot):
`Estimate` writes the parameters it derives from the window into its
by-reference output slots, abstracted as `est`; the reconstruction reads
the slots and the window, abstracted as `recon`. -/
def runSchedule (est : ℚ → ℚ) (recon : ℚ → ℚ → ℚ) (win : ℕ → ℚ) :
    List Ev → SharedState → SharedState
  | [], s => s
  | Ev.estimate i :: evs, s =>
      runSchedule est recon win evs { s with params := est (win i) }
  | Ev.reconstruct i :: evs, s =>
      runSchedule est recon win evs
        { s with out := s.out.set i (some (recon (win i) s.params)) }

/-- A schedule is a valid parallel execution of frames `0 … n-1` when
every step concerns a frame below `n`, each frame's two steps occur
exactly once, and its estimate precedes its reconstruct (each frame's
pipeline runs in order inside one worker; distinct workers interleave
arbitrarily). -/
def validSchedule (n : ℕ) (evs : List Ev) : Prop :=
  (∀ e ∈ evs, e.frame < n) ∧
  ∀ i < n, evs.count (Ev.estimate i) = 1 ∧ evs.count (Ev.reconstruct i) = 1 ∧
    evs.indexOf (Ev.estimate i) < evs.indexOf (Ev.reconstruct i)

instance (n : ℕ) (evs : List Ev) : Decidable (validSchedule n evs) := by
  unfold validSchedule
  infer_instance

/-- The uninterleaved schedule: frame 0 completes before frame 1 starts. -/
def schedSeq : List Ev := [.estimate 0, .reconstruct 0, .estimate 1, .reconstruct 1]

/-- An interleaved schedule: frame 1's estimate runs between frame 0's
estimate and frame 0's reconstruction. -/
def schedInterleaved : List Ev := [.estimate 0, .estimate 1, .reconstruct 0, .reconstruct 1]

/-- C8 (code bug): two valid parallel executions of the same two-frame
batch — same input windows, same estimator, same reconstruction —
produce different output slices for frame 0, because frame 0's
reconstruction reads the shared parameter slots after frame 1's
estimator overwrote them.  The output slice is not a function of the
input and the frame index alone. -/
theorem C8_schedule_dependent_output :
    validSchedule 2 schedSeq ∧ validSchedule 2 schedInterleaved ∧
    (runSchedule id (fun w p => w + p) (fun i => (i : ℚ)) schedSeq
        ⟨0, [none, none]⟩).out = [some 0, some 2] ∧
    (runSchedule id (fun w p => w + p) (fun i => (i : ℚ)) schedInterleaved
        ⟨0, [none, none]⟩).out = [some 1, some 2] ∧
    (runSchedule id (fun w p => w + p) (fun i => (i : ℚ)) schedSeq
        ⟨0, [none, none]⟩).out
      ≠ (runSchedule id (fun w p => w + p) (fun i => (i : ℚ)) schedInterleaved
        ⟨0, [none, none]⟩).out := by
  refine ⟨by decide, by decide, ?_, ?_, ?_⟩ <;>
    norm_num [runSchedule, schedSeq, schedInterleaved, List.set]

end PgureSvt
